import Mathlib

/-!
# Verification of the Cicada modem driver core

Shallow embedding of the Cicada repository's circular buffer
(`src/modules/circularbuffer.h`) and modem session engine helpers
(`cicada/commdevices/simcommdevice.cpp`), with theorems settling the
specification claims about them.

Machine integers (`uint16_t` heads and `Size` counters) are modelled as
`Nat`, with explicit `% 65536` wrapping at the points where the C
arithmetic can leave the `uint16_t` range.
-/

set_option autoImplicit false

namespace Cicada

/-! ## Circular buffer (`src/modules/circularbuffer.h`)

`CircularBuffer<T, BUFFER_SIZE>` holds a write head, a read head, a count of
available data and a backing array of `BUFFER_SIZE` elements.  The template
parameter `BUFFER_SIZE` becomes the field `bufferSize`; the backing array
becomes a `List` of that length. -/

structure CircularBuffer (T : Type) where
  bufferSize : Nat
  writeHead : Nat
  readHead : Nat
  availableData : Nat
  buffer : List T
  deriving DecidableEq, Repr

namespace CircularBuffer

variable {T : Type}

/-- `incrementOrResetHead`: `head++; if (head >= BUFFER_SIZE) head = 0;`.
The heads are `uint16_t`; they stay below `bufferSize ≤ 65535`, so the
increment never wraps and `Nat` addition is faithful. -/
def incrementOrResetHead (bufferSize head : Nat) : Nat :=
  if head + 1 ≥ bufferSize then 0 else head + 1

/-- `availableSpace()`: `BUFFER_SIZE - _availableData`. -/
def availableSpace (cb : CircularBuffer T) : Nat :=
  cb.bufferSize - cb.availableData

/-- `availableData()` accessor (`_availableData`). -/
def getAvailableData (cb : CircularBuffer T) : Nat :=
  cb.availableData

/-- `isEmpty()`: `_availableData == 0`. -/
def isEmpty (cb : CircularBuffer T) : Bool :=
  cb.availableData == 0

/-- `isFull()`: `_availableData == BUFFER_SIZE`. -/
def isFull (cb : CircularBuffer T) : Bool :=
  cb.availableData == cb.bufferSize

/-- Single-element `push(T data)`: stores at the write head, advances the
write head, and increments `_availableData` only when it is below
`BUFFER_SIZE`.  It never touches the read head. -/
def pushOne (cb : CircularBuffer T) (data : T) : CircularBuffer T :=
  { cb with
    buffer := cb.buffer.set cb.writeHead data
    writeHead := incrementOrResetHead cb.bufferSize cb.writeHead
    availableData :=
      if cb.availableData < cb.bufferSize then cb.availableData + 1
      else cb.availableData }

/-- The write loop of bulk `push(const T* data, uint16_t size)`: writes the
given elements at successive write-head positions, advancing the write head
each time.  (`_availableData` is updated once, after the loop.) -/
def writeLoop (cb : CircularBuffer T) : List T → CircularBuffer T
  | [] => cb
  | d :: ds =>
    writeLoop
      { cb with
        buffer := cb.buffer.set cb.writeHead d
        writeHead := incrementOrResetHead cb.bufferSize cb.writeHead }
      ds

/-- Bulk `push(const T* data, uint16_t size)`: clamps `size` to
`availableSpace()`, copies that many elements, adds the copied count to
`_availableData` and returns it. -/
def push (cb : CircularBuffer T) (data : List T) (size : Nat) :
    CircularBuffer T × Nat :=
  let sz := if size > cb.availableSpace then cb.availableSpace else size
  let cb2 := cb.writeLoop (data.take sz)
  ({ cb2 with availableData := cb2.availableData + sz }, sz)

/-- Single-element `pull()`: reads at the read head, advances the read head,
and decrements `_availableData` only when it is positive.  On an empty
buffer the C code returns stale data; the read is modelled with `getD`. -/
def pullOne [Inhabited T] (cb : CircularBuffer T) : CircularBuffer T × T :=
  let data := cb.buffer.getD cb.readHead default
  ({ cb with
     readHead := incrementOrResetHead cb.bufferSize cb.readHead
     availableData :=
       if 0 < cb.availableData then cb.availableData - 1
       else cb.availableData }, data)

/-- The read loop of bulk `pull(T* data, uint16_t size)`. -/
def readLoop [Inhabited T] (cb : CircularBuffer T) : Nat → CircularBuffer T × List T
  | 0 => (cb, [])
  | n + 1 =>
    let d := cb.buffer.getD cb.readHead default
    let r := readLoop
      { cb with readHead := incrementOrResetHead cb.bufferSize cb.readHead } n
    (r.1, d :: r.2)

/-- Bulk `pull(T* data, uint16_t size)`: clamps `size` to `availableData()`,
removes that many elements and returns them together with the count. -/
def pull [Inhabited T] (cb : CircularBuffer T) (size : Nat) :
    CircularBuffer T × List T × Nat :=
  let sz := if size > cb.availableData then cb.availableData else size
  let r := cb.readLoop sz
  ({ r.1 with availableData := r.1.availableData - sz }, r.2, sz)

/-- `read()`: peeks the element at the read head without consuming. -/
def readOne [Inhabited T] (cb : CircularBuffer T) : T :=
  cb.buffer.getD cb.readHead default

/-- `flush()`: resets both heads and the count to zero. -/
def flush (cb : CircularBuffer T) : CircularBuffer T :=
  { cb with writeHead := 0, readHead := 0, availableData := 0 }

/-- Well-formedness of a ring: the backing list has the declared length,
the write head is read head plus fill (mod capacity), the read head is in
range, and the fill never exceeds the capacity.  `resetStates`/construction
establish this and every operation preserves it. -/
def WF (cb : CircularBuffer T) : Prop :=
  cb.buffer.length = cb.bufferSize ∧
  cb.writeHead = (cb.readHead + cb.availableData) % cb.bufferSize ∧
  cb.readHead < cb.bufferSize ∧
  cb.availableData ≤ cb.bufferSize

/-- The logical FIFO contents of the ring: the `availableData` elements
starting at the read head, in pull order. -/
def contents [Inhabited T] (cb : CircularBuffer T) : List T :=
  (List.range cb.availableData).map
    (fun j => cb.buffer.getD ((cb.readHead + j) % cb.bufferSize) default)

instance (cb : CircularBuffer T) : Decidable cb.WF := by
  unfold WF
  infer_instance

end CircularBuffer

/-! ## Serial device model

`SimCommDevice` talks to an `IBufferedSerial`, whose implementation is not
part of the sources at hand (the spec lists it under external
collaborators).  Modelled from the spec: the downward interface of §6 — a
receive queue exposing `bytesAvailable`/`read`, and a transmit ring
exposing `spaceAvailable`/`write` where a bulk write copies at most the
free space.  `txData` records every byte handed to the UART so that
theorems can speak about what was emitted. -/

structure BufferedSerial where
  rxData : List Char
  txData : List Char
  txSpace : Nat
  readBufSize : Nat
  deriving DecidableEq, Repr

namespace BufferedSerial

/-- `bytesAvailable()` of the serial device. -/
def bytesAvailable (s : BufferedSerial) : Nat :=
  s.rxData.length

/-- `spaceAvailable()` of the serial device (TX ring free space). -/
def spaceAvailable (s : BufferedSerial) : Nat :=
  s.txSpace

/-- Single-byte `read()`: pops the next received byte (stale/default data
when the queue is empty, as with the rings). -/
def readOne (s : BufferedSerial) : BufferedSerial × Char :=
  ({ s with rxData := s.rxData.tail }, s.rxData.headD default)

/-- Bulk `read(data, maxSize)`: moves up to `maxSize` received bytes to the
caller and returns them with their count. -/
def readBulk (s : BufferedSerial) (maxSize : Nat) :
    BufferedSerial × List Char × Nat :=
  let taken := s.rxData.take maxSize
  ({ s with rxData := s.rxData.drop maxSize }, taken, taken.length)

/-- Single-byte `write(uint8_t)`: appends one byte to the TX ring when
there is room. -/
def writeByte (s : BufferedSerial) (b : Char) : BufferedSerial × Nat :=
  if 0 < s.txSpace then
    ({ s with txData := s.txData ++ [b], txSpace := s.txSpace - 1 }, 1)
  else (s, 0)

/-- Bulk `write(const uint8_t*)` / `write(data, len)`: copies the bytes
into the TX ring, clamped by the free space, returning the copied count. -/
def writeStr (s : BufferedSerial) (data : List Char) : BufferedSerial × Nat :=
  let k := min data.length s.txSpace
  ({ s with txData := s.txData ++ data.take k, txSpace := s.txSpace - k }, k)

end BufferedSerial

/-! ## SimCommDevice state

The fields of `SimCommDevice`/`IPCommDevice` used by the functions in
`simcommdevice.cpp`.  The headers declaring them are not part of the
sources at hand, so the shapes are modelled from the spec §3:

* the flag bitfield `_stateBooleans` becomes a record of booleans (the
  concrete bit masks live in the missing `ipcommdevice.h`);
* the connection phase enumeration lists the phases named by the spec;
* `Size` counters are 16-bit unsigned (the spec's upward interface uses
  `u16` sizes); arithmetic on them wraps modulo 65536. -/

inductive ConnectState where
  | notConnected
  | connecting
  | connected
  | connectionError
  | dnsError
  | generalError
  | intermediate
  deriving DecidableEq, Repr

structure StateBooleans where
  lineRead : Bool
  ipConnected : Bool
  dataPending : Bool
  disconnectPending : Bool
  connectPending : Bool
  resetPending : Bool
  serialLocked : Bool
  deriving DecidableEq, Repr

/-- `LINE_MAX_LENGTH`. Modelled from the spec: the capacity of the bounded
line buffer (§4.B); the literal value sits in the missing device header. -/
def LINE_MAX_LENGTH : Nat := 60

/-- `MIN_SPACE_AVAILABLE` (`simcommdevice.cpp` line 35). -/
def MIN_SPACE_AVAILABLE : Nat := 22

/-- The NUL character terminating C strings. -/
def NUL : Char := Char.ofNat 0

/-- The C-string view of a character array: the bytes before the first
NUL. -/
def cstring (l : List Char) : List Char :=
  l.takeWhile (· ≠ NUL)

/-- One `uint16_t` wrap step for `Size` arithmetic. -/
def wrap16 (n : Int) : Nat :=
  (n % 65536).toNat

structure SimCommDevice where
  serial : BufferedSerial
  readBuffer : CircularBuffer Char
  writeBuffer : CircularBuffer Char
  lineBuffer : List Char
  lbFill : Nat
  stateBooleans : StateBooleans
  connectState : ConnectState
  waitForReply : Option (List Char)
  replyState : Int
  bytesToWrite : Nat
  bytesToReceive : Nat
  bytesToRead : Nat
  ip : List Char
  deriving DecidableEq, Repr

namespace SimCommDevice

/-- `serialLock()`: refuses while a reply is outstanding
(`_waitForReply` non-null or `_replyState != 0`); otherwise sets
`SERIAL_LOCKED` and succeeds. -/
def serialLock (st : SimCommDevice) : SimCommDevice × Bool :=
  if st.waitForReply.isSome ∨ st.replyState ≠ 0 then (st, false)
  else
    ({ st with
       stateBooleans := { st.stateBooleans with serialLocked := true } }, true)

/-- `serialUnlock()`: clears `SERIAL_LOCKED`. -/
def serialUnlock (st : SimCommDevice) : SimCommDevice :=
  { st with stateBooleans := { st.stateBooleans with serialLocked := false } }

/-- `serialWrite(char* data)`: raw UART write of a C string, but only while
`SERIAL_LOCKED` is set; otherwise returns 0. -/
def serialWrite (st : SimCommDevice) (data : List Char) :
    SimCommDevice × Nat :=
  if st.stateBooleans.serialLocked then
    let r := st.serial.writeStr data
    ({ st with serial := r.1 }, r.2)
  else (st, 0)

/-- `serialRead(char* data, Size maxSize)`: raw UART read, but only while
`SERIAL_LOCKED` is set; otherwise returns 0 (and no bytes). -/
def serialRead (st : SimCommDevice) (maxSize : Nat) :
    SimCommDevice × List Char × Nat :=
  if st.stateBooleans.serialLocked then
    let r := st.serial.readBulk maxSize
    ({ st with serial := r.1 }, r.2)
  else (st, [], 0)

/-- The loop body of `fillLineBuffer`, consuming the pending UART bytes:
each byte is stored at the fill cursor; a `'\n'` or `'>'` byte, or the
cursor reaching `LINE_MAX_LENGTH`, terminates with a NUL written after the
stored bytes and the cursor reset.  Returns the updated line buffer, the
updated cursor, the bytes left unconsumed, and whether a line was
yielded. -/
def fillLoop : List Char → Nat → List Char → List Char × Nat × List Char × Bool
  | lineBuffer, lbFill, [] => (lineBuffer, lbFill, [], false)
  | lineBuffer, lbFill, c :: rest =>
    let lb := lineBuffer.set lbFill c
    let f := lbFill + 1
    if c = '\n' ∨ c = '>' ∨ f = LINE_MAX_LENGTH then
      (lb.set f NUL, 0, rest, true)
    else
      fillLoop lb f rest

/-- `fillLineBuffer()`: while `LINE_READ` is set, drains UART bytes into
the line buffer; see `fillLoop` for the termination conditions.  When
`LINE_READ` is clear it does nothing and returns false. -/
def fillLineBuffer (st : SimCommDevice) : SimCommDevice × Bool :=
  if st.stateBooleans.lineRead then
    let r := fillLoop st.lineBuffer st.lbFill st.serial.rxData
    ({ st with
       lineBuffer := r.1
       lbFill := r.2.1
       serial := { st.serial with rxData := r.2.2.1 } }, r.2.2.2)
  else (st, false)

end SimCommDevice

/-! Specification helpers for the line reader: where the first terminator
condition fires in a byte stream, and bulk writes at successive indices of
the line buffer.  Used to state and prove the line terminator law. -/

/-- A store of the bytes `s` at indices `i, i+1, …` of `l` (the successive
`_lineBuffer[_lbFill++] = c` stores of the fill loop). -/
def setRange (l : List Char) (i : Nat) : List Char → List Char
  | [] => l
  | c :: cs => setRange (l.set i c) (i + 1) cs

/-- Byte `k` of the stream triggers the terminator check when it is `'\n'`
or `'>'`, or when storing it brings the fill cursor (starting at `f`) to
`LINE_MAX_LENGTH`. -/
def isTermAt (f : Nat) (s : List Char) (k : Nat) : Prop :=
  s.getD k default = '\n' ∨ s.getD k default = '>' ∨
    f + k + 1 = LINE_MAX_LENGTH

instance (f : Nat) (s : List Char) (k : Nat) : Decidable (isTermAt f s k) :=
  by unfold isTermAt; infer_instance

/-- Index of the first byte of `s` that triggers the terminator check,
with the fill cursor starting at `f`. -/
def findTerm (f : Nat) : List Char → Option Nat
  | [] => none
  | c :: cs =>
    if c = '\n' ∨ c = '>' ∨ f + 1 = LINE_MAX_LENGTH then some 0
    else (findTerm (f + 1) cs).map (· + 1)

/-! Helpers for the DNS reply parser. -/

/-- The scan `while (q < 3) if (_lineBuffer[i++] == '"') q++;` advances the
index past one quote at a time; this helper drops everything up to and
including the next `'"'`.  (The C loop relies on the caller-checked quote
count to stay inside the string.) -/
def dropThroughQuote : List Char → List Char
  | [] => []
  | c :: rest => if c = '"' then rest else dropThroughQuote rest

/-- Decimal number parsing of `sscanf(s, "%d", &v)`: skip leading
whitespace, accept an optional sign, then a nonempty digit run.  `none`
when no conversion happens (the C call then leaves the output variable
indeterminate). -/
def digitsToNat (ds : List Char) : Nat :=
  ds.foldl (fun a c => a * 10 + (c.toNat - 48)) 0

/-- The characters `isspace` accepts in the C locale. -/
def isSpaceChar (c : Char) : Bool :=
  c = ' ' ∨ c = '\t' ∨ c = '\n' ∨ c = Char.ofNat 11 ∨ c = Char.ofNat 12 ∨
    c = '\r'

def sscanfDec (l : List Char) : Option Int :=
  let l1 := l.dropWhile isSpaceChar
  let sl : Int × List Char :=
    match l1 with
    | [] => (1, l1)
    | c :: rest =>
      if c = '-' then (-1, rest) else if c = '+' then (1, rest) else (1, l1)
  let ds := sl.2.takeWhile Char.isDigit
  if ds.isEmpty then none else some (sl.1 * (digitsToNat ds : Int))

namespace SimCommDevice

/-- `parseDnsReply()`.  On a line starting `+CDNSGIP: 1`: counts the
double quotes of the line; outside `[4,10]` it sets the phase to
`dnsError` and fails; otherwise it skips past the third quote and copies
the characters up to the next quote into `_ip` (the in-place NUL-ing of
the quotes in the dead line buffer is not tracked).  On a line starting
`+CDNSGIP: 0` it sets `RESET_PENDING`.  Anything else, and both non-copy
branches, return false. -/
def parseDnsReply (st : SimCommDevice) : SimCommDevice × Bool :=
  let line := cstring st.lineBuffer
  if List.isPrefixOf "+CDNSGIP: 1".toList line then
    let q := line.count '"'
    if q < 4 ∨ q > 10 then
      ({ st with connectState := ConnectState.dnsError }, false)
    else
      let rest := dropThroughQuote (dropThroughQuote (dropThroughQuote line))
      ({ st with ip := rest.takeWhile (· ≠ '"') }, true)
  else if List.isPrefixOf "+CDNSGIP: 0".toList line then
    ({ st with
       stateBooleans := { st.stateBooleans with resetPending := true } },
     false)
  else
    (st, false)

/-- `parseCiprxget4()`: on a `+CIPRXGET: 4,0,` line, adds the announced
count to `_bytesToReceive` (a `Size`, hence the 16-bit wrap).  When the
line carries no number the C variable read by `sscanf` is indeterminate;
that unreachable-by-protocol case is modelled as adding 0. -/
def parseCiprxget4 (st : SimCommDevice) : SimCommDevice × Bool :=
  let line := cstring st.lineBuffer
  if List.isPrefixOf "+CIPRXGET: 4,0,".toList line then
    let v := (sscanfDec (line.drop 15)).getD 0
    ({ st with bytesToReceive := wrap16 ((st.bytesToReceive : Int) + v) },
     true)
  else (st, false)

/-- `parseCiprxget2()`: on a `+CIPRXGET: 2,0,` line, subtracts the granted
count from `_bytesToReceive`, adds it to `_bytesToRead` and clears
`LINE_READ`. -/
def parseCiprxget2 (st : SimCommDevice) : SimCommDevice × Bool :=
  let line := cstring st.lineBuffer
  if List.isPrefixOf "+CIPRXGET: 2,0,".toList line then
    let v := (sscanfDec (line.drop 15)).getD 0
    ({ st with
       bytesToReceive := wrap16 ((st.bytesToReceive : Int) - v)
       bytesToRead := wrap16 ((st.bytesToRead : Int) + v)
       stateBooleans := { st.stateBooleans with lineRead := false } },
     true)
  else (st, false)

/-- `prepareSending()`: fails when the UART TX ring has fewer than
`MIN_SPACE_AVAILABLE` (22) bytes free.  Otherwise stages
`bytesToWrite = min(writeBuffer fill, free − 22)`, writes
`AT+CIPSEND=0,` followed by the decimal size (rendered by
`snprintf(sizeStr, 6, "%u", ...)`, hence at most 5 characters), and arms
`waitForReply = ">"`.  No line terminator is written by this function. -/
def prepareSending (st : SimCommDevice) : SimCommDevice × Bool :=
  if st.serial.spaceAvailable < MIN_SPACE_AVAILABLE then (st, false)
  else
    let btw0 := st.writeBuffer.getAvailableData
    let btw :=
      if btw0 > st.serial.spaceAvailable - MIN_SPACE_AVAILABLE then
        st.serial.spaceAvailable - MIN_SPACE_AVAILABLE
      else btw0
    let s1 := (st.serial.writeStr "AT+CIPSEND=0,".toList).1
    let s2 := (s1.writeStr ((Nat.repr btw).toList.take 5)).1
    ({ st with
       serial := s2
       bytesToWrite := btw
       waitForReply := some ['>'] }, true)

/-- The loop of `sendData()`: `while (_bytesToWrite--) {
_serial.write(_writeBuffer.pull()); }`.  The recursion counts the
remaining iterations; when the counter tests zero the final post-decrement
wraps the `uint16_t` to 65535. -/
def sendDataAux : SimCommDevice → Nat → SimCommDevice
  | st, 0 => { st with bytesToWrite := 65535 }
  | st, n + 1 =>
    let r := st.writeBuffer.pullOne
    let w := st.serial.writeByte r.2
    sendDataAux { st with writeBuffer := r.1, serial := w.1 } n

/-- `sendData()`: pulls `_bytesToWrite` bytes from the write ring into the
UART, one at a time. -/
def sendData (st : SimCommDevice) : SimCommDevice :=
  sendDataAux st st.bytesToWrite

end SimCommDevice

/-! Concrete states used by the sanity checks and the claim witnesses. -/

def testSerial : BufferedSerial :=
  { rxData := [], txData := [], txSpace := 100, readBufSize := 128 }

def emptyRing : CircularBuffer Char :=
  { bufferSize := 8, writeHead := 0, readHead := 0, availableData := 0
    buffer := List.replicate 8 'x' }

def baseState : SimCommDevice :=
  { serial := testSerial
    readBuffer := emptyRing
    writeBuffer := emptyRing
    lineBuffer := List.replicate (LINE_MAX_LENGTH + 1) NUL
    lbFill := 0
    stateBooleans :=
      { lineRead := true, ipConnected := false, dataPending := false
        disconnectPending := false, connectPending := false
        resetPending := false, serialLocked := false }
    connectState := ConnectState.notConnected
    waitForReply := none
    replyState := 0
    bytesToWrite := 0
    bytesToReceive := 0
    bytesToRead := 0
    ip := [] }

example :
    ((baseState.parseDnsReply) = (baseState, false)) := by decide

example :
    (({ baseState with
        lineBuffer := "+CDNSGIP: 1,\"host\",\"1.2.3.4\"\r\n".toList }).parseDnsReply).1.ip
      = "1.2.3.4".toList := by decide

example :
    (({ baseState with
        lineBuffer := "+CIPRXGET: 4,0,37\r\n".toList,
        bytesToReceive := 5 }).parseCiprxget4).1.bytesToReceive = 42 := by
  decide

example :
    (({ baseState with
        writeBuffer :=
          { bufferSize := 8, writeHead := 2, readHead := 0,
            availableData := 2, buffer := "hixxxxxx".toList },
        bytesToWrite := 2 }).sendData).serial.txData = "hi".toList := by
  decide

example :
    (({ baseState with
        writeBuffer :=
          { bufferSize := 8, writeHead := 2, readHead := 0,
            availableData := 2, buffer := "hixxxxxx".toList },
        bytesToWrite := 2 }).sendData).bytesToWrite = 65535 := by
  decide

example :
    (({ baseState with
        serial := { testSerial with rxData := "OK\r\nrest".toList } }).fillLineBuffer).2
      = true := by decide

example :
    (cstring ((({ baseState with
        serial := { testSerial with rxData := "OK\r\nrest".toList } }).fillLineBuffer).1.lineBuffer))
      = "OK\r\n".toList := by decide

example :
    (({ baseState with
        serial := { testSerial with rxData := "OK\r\nrest".toList } }).fillLineBuffer).1.serial.rxData
      = "rest".toList := by decide

example :
    (({ baseState with
        writeBuffer :=
          { bufferSize := 8, writeHead := 5, readHead := 0,
            availableData := 5, buffer := "helloxxx".toList } }).prepareSending).1.serial.txData
      = "AT+CIPSEND=0,5".toList := by decide

/-! Sanity checks on concrete rings. -/

example :
    ((CircularBuffer.mk 3 0 0 0 [0, 0, 0]).push [7, 8] 2).1.availableData = 2 := by
  decide

example :
    ((CircularBuffer.mk 3 0 0 0 [0, 0, 0]).push [7, 8] 2).1.buffer = [7, 8, 0] := by
  decide

example :
    ((CircularBuffer.mk 2 0 0 2 [10, 20]).pushOne 99).availableData = 2 := by
  decide

example :
    ((CircularBuffer.mk 2 0 0 2 [10, 20]).pushOne 99).readHead = 0 := by
  decide

example :
    ((CircularBuffer.mk 2 0 0 2 [10, 20]).pushOne 99).buffer = [99, 20] := by
  decide

example :
    ((CircularBuffer.mk 3 1 1 2 [5, 6, 7]).pullOne).2 = 6 := by
  decide

/-! ## List helper lemmas -/

theorem getD_set_ne {α : Type} (l : List α) (i j : Nat) (a d : α)
    (h : i ≠ j) : (l.set i a).getD j d = l.getD j d := by
  simp [List.getD_eq_getElem?_getD, List.getElem?_set_ne h]

theorem getD_set_self {α : Type} (l : List α) (i : Nat) (a d : α)
    (h : i < l.length) : (l.set i a).getD i d = a := by
  simp [List.getD_eq_getElem?_getD, List.getElem?_set_eq_of_lt a h]

/-- Positions `rh + j` and `rh + m` with `j ≠ m` both within one ring
revolution land on distinct slots. -/
theorem mod_add_ne {N rh j m : Nat} (hj : j < N) (hm : m < N)
    (hne : j ≠ m) : (rh + j) % N ≠ (rh + m) % N := by
  intro h
  have hjm : j ≡ m [MOD N] := Nat.ModEq.add_left_cancel' rh h
  have : j % N = m % N := hjm
  rw [Nat.mod_eq_of_lt hj, Nat.mod_eq_of_lt hm] at this
  exact hne this

/-! ## Circular buffer lemmas -/

namespace CircularBuffer

variable {T : Type}

theorem incrementOrResetHead_eq_mod {size head : Nat} (h : head < size) :
    incrementOrResetHead size head = (head + 1) % size := by
  unfold incrementOrResetHead
  by_cases hge : head + 1 ≥ size
  · have heq : head + 1 = size := le_antisymm h hge
    simp [hge, heq]
  · have hlt : head + 1 < size := lt_of_not_ge hge
    simp [hge, Nat.mod_eq_of_lt hlt]

theorem incrementOrResetHead_lt {size head : Nat} (hs : 0 < size) :
    incrementOrResetHead size head < size := by
  unfold incrementOrResetHead
  split
  · exact hs
  · omega

theorem writeLoop_readHead (cb : CircularBuffer T) (ds : List T) :
    (cb.writeLoop ds).readHead = cb.readHead := by
  induction ds generalizing cb with
  | nil => rfl
  | cons d ds ih => simpa [writeLoop] using ih _

theorem writeLoop_availableData (cb : CircularBuffer T) (ds : List T) :
    (cb.writeLoop ds).availableData = cb.availableData := by
  induction ds generalizing cb with
  | nil => rfl
  | cons d ds ih => simpa [writeLoop] using ih _

theorem writeLoop_bufferSize (cb : CircularBuffer T) (ds : List T) :
    (cb.writeLoop ds).bufferSize = cb.bufferSize := by
  induction ds generalizing cb with
  | nil => rfl
  | cons d ds ih => simpa [writeLoop] using ih _

theorem writeLoop_buffer_length (cb : CircularBuffer T) (ds : List T) :
    (cb.writeLoop ds).buffer.length = cb.buffer.length := by
  induction ds generalizing cb with
  | nil => rfl
  | cons d ds ih =>
    rw [writeLoop, ih]
    simp

theorem writeLoop_writeHead (cb : CircularBuffer T) (ds : List T)
    (hs : 0 < cb.bufferSize) (hw : cb.writeHead < cb.bufferSize) :
    (cb.writeLoop ds).writeHead = (cb.writeHead + ds.length) % cb.bufferSize := by
  induction ds generalizing cb with
  | nil => simp [writeLoop, Nat.mod_eq_of_lt hw]
  | cons d ds ih =>
    have hrec := ih
      { cb with
        buffer := cb.buffer.set cb.writeHead d
        writeHead := incrementOrResetHead cb.bufferSize cb.writeHead }
      hs (incrementOrResetHead_lt hs)
    rw [writeLoop, hrec]
    show (incrementOrResetHead cb.bufferSize cb.writeHead + ds.length)
        % cb.bufferSize = _
    rw [incrementOrResetHead_eq_mod hw, Nat.mod_add_mod]
    simp only [List.length_cons]
    congr 1
    omega

/-- A slot that is none of the `ds.length` successive write positions is
left untouched by the write loop. -/
theorem writeLoop_getD (cb : CircularBuffer T) (ds : List T) (d : T)
    (hs : 0 < cb.bufferSize) (hw : cb.writeHead < cb.bufferSize) (p : Nat)
    (hp : ∀ k, k < ds.length → p ≠ (cb.writeHead + k) % cb.bufferSize) :
    (cb.writeLoop ds).buffer.getD p d = cb.buffer.getD p d := by
  induction ds generalizing cb with
  | nil => rfl
  | cons c cs ih =>
    rw [writeLoop]
    have hp0 : p ≠ cb.writeHead := by
      have := hp 0 (by simp)
      simpa [Nat.mod_eq_of_lt hw] using this
    have hrec := ih
      { cb with
        buffer := cb.buffer.set cb.writeHead c
        writeHead := incrementOrResetHead cb.bufferSize cb.writeHead }
      hs (incrementOrResetHead_lt hs) ?_
    · rw [hrec]
      exact getD_set_ne _ _ _ _ _ (Ne.symm hp0)
    · intro k hk
      show p ≠ (incrementOrResetHead cb.bufferSize cb.writeHead + k)
          % cb.bufferSize
      rw [incrementOrResetHead_eq_mod hw, Nat.mod_add_mod]
      have harith : cb.writeHead + 1 + k = cb.writeHead + (k + 1) := by omega
      rw [harith]
      exact hp (k + 1) (by simp only [List.length_cons]; omega)

theorem push_snd (cb : CircularBuffer T) (data : List T) (size : Nat) :
    (cb.push data size).2 = min size cb.availableSpace := by
  simp only [push]
  split <;> omega

theorem push_availableData (cb : CircularBuffer T) (data : List T)
    (size : Nat) :
    (cb.push data size).1.availableData
      = cb.availableData + min size cb.availableSpace := by
  simp only [push]
  rw [writeLoop_availableData]
  split <;> omega

theorem push_readHead (cb : CircularBuffer T) (data : List T) (size : Nat) :
    (cb.push data size).1.readHead = cb.readHead := by
  simp only [push]
  rw [writeLoop_readHead]

theorem push_bufferSize (cb : CircularBuffer T) (data : List T) (size : Nat) :
    (cb.push data size).1.bufferSize = cb.bufferSize := by
  simp only [push]
  rw [writeLoop_bufferSize]

/-- Bulk push never overwrites: every slot holding logical data keeps its
element. -/
theorem push_preserves [Inhabited T] (cb : CircularBuffer T)
    (hwf : cb.WF) (hs : 0 < cb.bufferSize) (data : List T) (size : Nat)
    (j : Nat) (hj : j < cb.availableData) :
    (cb.push data size).1.buffer.getD ((cb.readHead + j) % cb.bufferSize)
        default
      = cb.buffer.getD ((cb.readHead + j) % cb.bufferSize) default := by
  obtain ⟨hlen, hwh, hrh, hle⟩ := hwf
  simp only [push]
  apply writeLoop_getD cb _ _ hs (by rw [hwh]; exact Nat.mod_lt _ hs)
  intro k hk
  rw [List.length_take] at hk
  have hkspace : k < cb.bufferSize - cb.availableData := by
    unfold availableSpace at hk
    split at hk <;> omega
  rw [hwh, Nat.mod_add_mod, Nat.add_assoc]
  exact mod_add_ne (by omega) (by omega) (by omega)

/-- `pushOne` facts shared by several claims. -/
theorem pushOne_readHead (cb : CircularBuffer T) (x : T) :
    (cb.pushOne x).readHead = cb.readHead := rfl

theorem pushOne_availableData (cb : CircularBuffer T) (x : T) :
    (cb.pushOne x).availableData
      = if cb.availableData < cb.bufferSize then cb.availableData + 1
        else cb.availableData := rfl

/-- On a full well-formed ring the write head sits on the read head, so the
single-element push overwrites the oldest element in place. -/
theorem pushOne_full_writeHead_eq_readHead (cb : CircularBuffer T)
    (hwf : cb.WF) (hs : 0 < cb.bufferSize)
    (hfull : cb.availableData = cb.bufferSize) :
    cb.writeHead = cb.readHead := by
  obtain ⟨hlen, hwh, hrh, hle⟩ := hwf
  rw [hwh, hfull, Nat.add_mod_right, Nat.mod_eq_of_lt hrh]

theorem pullOne_availableData [Inhabited T] (cb : CircularBuffer T) :
    (cb.pullOne).1.availableData
      = if 0 < cb.availableData then cb.availableData - 1
        else cb.availableData := rfl

/-- The logical contents after a non-full single push: the old contents
with the new element appended. -/
theorem pushOne_contents [Inhabited T] (cb : CircularBuffer T)
    (hwf : cb.WF) (hs : 0 < cb.bufferSize)
    (hnf : cb.availableData < cb.bufferSize) (x : T) :
    (cb.pushOne x).contents = cb.contents ++ [x] := by
  obtain ⟨hlen, hwh, hrh, hle⟩ := hwf
  have havail : (cb.pushOne x).availableData = cb.availableData + 1 := by
    rw [pushOne_availableData, if_pos hnf]
  unfold contents
  rw [havail, pushOne_readHead]
  show (List.range (cb.availableData + 1)).map _ = _
  rw [List.range_succ, List.map_append]
  congr 1
  · apply List.map_congr_left
    intro j hj
    have hj' : j < cb.availableData := List.mem_range.mp hj
    show (cb.pushOne x).buffer.getD ((cb.readHead + j) % cb.bufferSize)
        default = _
    unfold pushOne
    simp only
    apply getD_set_ne
    rw [hwh]
    exact mod_add_ne hnf (by omega) (by omega)
  · simp only [List.map_cons, List.map_nil]
    congr 1
    show (cb.pushOne x).buffer.getD
        ((cb.readHead + cb.availableData) % cb.bufferSize) default = x
    unfold pushOne
    simp only
    rw [← hwh]
    exact getD_set_self _ _ _ _
      (by rw [hlen, hwh]; exact Nat.mod_lt _ hs)

/-- Well-formedness is preserved by the single-element pull. -/
theorem pullOne_WF [Inhabited T] (cb : CircularBuffer T) (hwf : cb.WF)
    (hs : 0 < cb.bufferSize) (hne : 0 < cb.availableData) :
    (cb.pullOne).1.WF := by
  obtain ⟨hlen, hwh, hrh, hle⟩ := hwf
  refine ⟨hlen, ?_, ?_, ?_⟩
  · show cb.writeHead
      = (incrementOrResetHead cb.bufferSize cb.readHead
          + (cb.pullOne).1.availableData) % cb.bufferSize
    rw [pullOne_availableData, if_pos hne,
      incrementOrResetHead_eq_mod hrh, Nat.mod_add_mod, hwh]
    congr 1
    omega
  · exact incrementOrResetHead_lt hs
  · have hbs : (cb.pullOne).1.bufferSize = cb.bufferSize := rfl
    rw [pullOne_availableData, hbs]
    split <;> omega

theorem pullOne_val [Inhabited T] (cb : CircularBuffer T)
    (hrh : cb.readHead < cb.bufferSize) (hne : 0 < cb.availableData) :
    (cb.pullOne).2 = cb.contents.headD default := by
  unfold pullOne contents
  simp only
  obtain ⟨m, hm⟩ : ∃ m, cb.availableData = m + 1 :=
    ⟨cb.availableData - 1, by omega⟩
  rw [hm]
  rw [List.range_succ_eq_map]
  simp [Nat.mod_eq_of_lt hrh]

theorem pullOne_contents [Inhabited T] (cb : CircularBuffer T)
    (hwf : cb.WF) (hs : 0 < cb.bufferSize) (hne : 0 < cb.availableData) :
    (cb.pullOne).1.contents = cb.contents.tail := by
  obtain ⟨hlen, hwh, hrh, hle⟩ := hwf
  obtain ⟨m, hm⟩ : ∃ m, cb.availableData = m + 1 :=
    ⟨cb.availableData - 1, by omega⟩
  unfold contents
  have havail : (cb.pullOne).1.availableData = m := by
    rw [pullOne_availableData, if_pos hne, hm]
    omega
  have hbs : (cb.pullOne).1.bufferSize = cb.bufferSize := rfl
  have hbuf : (cb.pullOne).1.buffer = cb.buffer := rfl
  have hrh2 : (cb.pullOne).1.readHead = (cb.readHead + 1) % cb.bufferSize := by
    show incrementOrResetHead cb.bufferSize cb.readHead = _
    exact incrementOrResetHead_eq_mod hrh
  rw [havail, hbs, hbuf, hrh2, hm]
  conv_rhs => rw [List.range_succ_eq_map]
  simp only [List.map_cons, List.tail_cons, List.map_map]
  apply List.map_congr_left
  intro j hj
  simp only [Function.comp]
  have harith : cb.readHead + 1 + j = cb.readHead + (j + 1) := by omega
  rw [Nat.mod_add_mod, harith]

end CircularBuffer

/-! ## Claim C1 — single-element push on the ring -/

/-- C1 counterexample: on the full well-formed ring of capacity 2 holding
`[10, 20]`, the single-element push does **not** advance the read head by
one — it stays at 0 — although `availableData` stays at the capacity, so
the claim's "advances the read head by one" is false on the code. -/
theorem claim1_counterexample :
    (CircularBuffer.mk 2 0 0 2 [10, 20]).WF ∧
    (CircularBuffer.mk 2 0 0 2 [10, 20]).availableData
      = (CircularBuffer.mk 2 0 0 2 [10, 20]).bufferSize ∧
    ((CircularBuffer.mk 2 0 0 2 [10, 20]).pushOne 99).readHead = 0 ∧
    ¬ (((CircularBuffer.mk 2 0 0 2 [10, 20]).pushOne 99).readHead
        = (CircularBuffer.mk 2 0 0 2 [10, 20]).readHead + 1) := by
  constructor
  · unfold CircularBuffer.WF
    decide
  · exact ⟨by decide, by decide, by decide⟩

/-- C1 (amended): on a full well-formed ring the single-element push
overwrites the oldest element in place (the write head sits on the read
head), leaves the read head **unchanged** — so the newly pushed element is
the next one pulled — and keeps `availableData == N`; on every non-full
ring it appends the element to the logical contents and increments
`availableData` by one. -/
theorem claim1_push_overwrite {T : Type} [Inhabited T]
    (cb : CircularBuffer T) (hwf : cb.WF) (hs : 0 < cb.bufferSize) (x : T) :
    (cb.availableData = cb.bufferSize →
      (cb.pushOne x).buffer.getD cb.readHead default = x ∧
      (cb.pushOne x).readHead = cb.readHead ∧
      (cb.pushOne x).availableData = cb.bufferSize ∧
      ((cb.pushOne x).pullOne).2 = x) ∧
    (cb.availableData < cb.bufferSize →
      (cb.pushOne x).contents = cb.contents ++ [x] ∧
      (cb.pushOne x).availableData = cb.availableData + 1) := by
  have hlen := hwf.1
  have hrh := hwf.2.2.1
  constructor
  · intro hfull
    have hwr := CircularBuffer.pushOne_full_writeHead_eq_readHead cb hwf hs
      hfull
    have hover : (cb.pushOne x).buffer.getD cb.readHead default = x := by
      show (cb.buffer.set cb.writeHead x).getD cb.readHead default = x
      rw [hwr]
      exact getD_set_self _ _ _ _ (by rw [hlen]; exact hrh)
    refine ⟨hover, rfl, ?_, ?_⟩
    · rw [CircularBuffer.pushOne_availableData, if_neg (by omega), hfull]
    · show (cb.pushOne x).buffer.getD ((cb.pushOne x).readHead) default = x
      rw [CircularBuffer.pushOne_readHead]
      exact hover
  · intro hnf
    refine ⟨CircularBuffer.pushOne_contents cb hwf hs hnf x, ?_⟩
    rw [CircularBuffer.pushOne_availableData, if_pos hnf]

/-- C1 witness: the amended law applied to a concrete full ring and a
concrete non-full ring. -/
theorem claim1_witness :
    ((CircularBuffer.mk 3 0 0 3 [5, 6, 7]).pushOne 9).readHead = 0 ∧
    ((CircularBuffer.mk 3 2 0 2 [5, 6, 0]).pushOne 9).availableData = 3 := by
  constructor
  · exact ((claim1_push_overwrite (CircularBuffer.mk 3 0 0 3 [5, 6, 7])
      (by unfold CircularBuffer.WF; decide) (by decide) 9).1 (by decide)).2.1
  · have h := ((claim1_push_overwrite (CircularBuffer.mk 3 2 0 2 [5, 6, 0])
      (by unfold CircularBuffer.WF; decide) (by decide) 9).2 (by decide)).2
    rw [h]

/-! ## Claim C9 — the ring keeps `0 ≤ availableData ≤ N` -/

/-- C9: bulk push clamps the copied count to `availableSpace()` and never
overwrites logical data; single `pull()` on an empty buffer leaves
`availableData` at zero; single push on a full buffer leaves it at `N`;
and all three operations keep `availableData ≤ N` (it is a `Nat`, hence
never below zero, mirroring the guarded C decrement/increment). -/
theorem claim9_availableData_bounds {T : Type} [Inhabited T]
    (cb : CircularBuffer T) (hwf : cb.WF) (hs : 0 < cb.bufferSize) :
    (∀ data size,
      (cb.push data size).2 = min size cb.availableSpace ∧
      (cb.push data size).1.availableData
        = cb.availableData + min size cb.availableSpace ∧
      (cb.push data size).1.availableData ≤ cb.bufferSize ∧
      ∀ j, j < cb.availableData →
        (cb.push data size).1.buffer.getD
            ((cb.readHead + j) % cb.bufferSize) default
          = cb.buffer.getD ((cb.readHead + j) % cb.bufferSize) default) ∧
    ((cb.pullOne).1.availableData ≤ cb.bufferSize) ∧
    (cb.availableData = 0 → (cb.pullOne).1.availableData = 0) ∧
    (∀ x, (cb.pushOne x).availableData ≤ cb.bufferSize) ∧
    (cb.availableData = cb.bufferSize →
      ∀ x, (cb.pushOne x).availableData = cb.bufferSize) := by
  have hle := hwf.2.2.2
  refine ⟨?_, ?_, ?_, ?_, ?_⟩
  · intro data size
    refine ⟨CircularBuffer.push_snd cb data size, ?_, ?_, ?_⟩
    · exact CircularBuffer.push_availableData cb data size
    · rw [CircularBuffer.push_availableData]
      unfold CircularBuffer.availableSpace
      omega
    · intro j hj
      exact CircularBuffer.push_preserves cb hwf hs data size j hj
  · rw [CircularBuffer.pullOne_availableData]
    split <;> omega
  · intro h0
    rw [CircularBuffer.pullOne_availableData, h0]
    simp
  · intro x
    rw [CircularBuffer.pushOne_availableData]
    split <;> omega
  · intro hfull x
    rw [CircularBuffer.pushOne_availableData, if_neg (by omega), hfull]

/-- C9 witness: the bound law applied to a concrete ring; a bulk push of 5
elements into 1 free slot copies exactly 1. -/
theorem claim9_witness :
    ((CircularBuffer.mk 3 2 0 2 [7, 8, 0]).push [1, 2] 5).2 = 1 := by
  have h := (claim9_availableData_bounds (CircularBuffer.mk 3 2 0 2 [7, 8, 0])
    (by unfold CircularBuffer.WF; decide) (by decide)).1 [1, 2] 5
  rw [h.1]
  decide

/-! ## Claim C8 — `serialLock` gating -/

/-- C8: `serialLock()` returns false and leaves the state unchanged
whenever a reply is outstanding (`waitForReply` non-null or `replyState`
nonzero); in every other state it sets `SERIAL_LOCKED` and returns
true. -/
theorem claim8_serialLock (st : SimCommDevice) :
    (st.waitForReply.isSome ∨ st.replyState ≠ 0 →
      st.serialLock = (st, false)) ∧
    (st.waitForReply = none → st.replyState = 0 →
      st.serialLock
        = ({ st with
             stateBooleans :=
               { st.stateBooleans with serialLocked := true } }, true)) := by
  constructor
  · intro h
    unfold SimCommDevice.serialLock
    rw [if_pos h]
  · intro hw hr
    unfold SimCommDevice.serialLock
    rw [if_neg]
    push_neg
    exact ⟨by rw [hw]; simp, hr⟩

/-- C8 witness: refused while a reply is in flight; granted (and flag set)
in the idle base state. -/
theorem claim8_witness :
    ({ baseState with replyState := 1 } : SimCommDevice).serialLock
        = ({ baseState with replyState := 1 }, false) ∧
    (baseState.serialLock).1.stateBooleans.serialLocked = true ∧
    (baseState.serialLock).2 = true := by
  refine ⟨(claim8_serialLock _).1 (Or.inr (by decide)), ?_, ?_⟩
  · rw [(claim8_serialLock baseState).2 rfl rfl]
  · rw [(claim8_serialLock baseState).2 rfl rfl]

/-! ## Claim C10 — raw serial access only while locked -/

/-- C10: with `SERIAL_LOCKED` clear, `serialWrite` and `serialRead` return
0 and leave the whole device — the underlying serial device included —
untouched. -/
theorem claim10_serial_frame (st : SimCommDevice)
    (h : st.stateBooleans.serialLocked = false) :
    (∀ data, st.serialWrite data = (st, 0)) ∧
    (∀ maxSize, st.serialRead maxSize = (st, [], 0)) := by
  constructor
  · intro data
    unfold SimCommDevice.serialWrite
    rw [h]
    simp
  · intro maxSize
    unfold SimCommDevice.serialRead
    rw [h]
    simp

/-- C10 witness: unlocked raw writes and reads on the base state are
no-ops returning 0. -/
theorem claim10_witness :
    baseState.serialWrite "AT".toList = (baseState, 0) ∧
    baseState.serialRead 5 = (baseState, [], 0) := by
  exact ⟨(claim10_serial_frame baseState rfl).1 _,
    (claim10_serial_frame baseState rfl).2 _⟩

/-! ## Claim C2 — `sendData` -/

theorem contents_length {T : Type} [Inhabited T] (cb : CircularBuffer T) :
    cb.contents.length = cb.availableData := by
  simp [CircularBuffer.contents]

/-- What `n` iterations of the `sendData` loop do: append the first `n`
logical bytes of the write ring to the UART TX data, remove them from the
ring, leave the rest of the device alone — and leave `_bytesToWrite` at
65535, the result of post-decrementing the `uint16_t` counter past
zero. -/
theorem sendDataAux_spec (n : Nat) :
    ∀ st : SimCommDevice,
      st.writeBuffer.WF → 0 < st.writeBuffer.bufferSize →
      n ≤ st.writeBuffer.availableData → n ≤ st.serial.txSpace →
      (SimCommDevice.sendDataAux st n).serial.txData
          = st.serial.txData ++ st.writeBuffer.contents.take n ∧
      (SimCommDevice.sendDataAux st n).writeBuffer.availableData
          = st.writeBuffer.availableData - n ∧
      (SimCommDevice.sendDataAux st n).bytesToWrite = 65535 ∧
      (SimCommDevice.sendDataAux st n).serial.rxData = st.serial.rxData ∧
      (SimCommDevice.sendDataAux st n).stateBooleans = st.stateBooleans ∧
      (SimCommDevice.sendDataAux st n).waitForReply = st.waitForReply ∧
      (SimCommDevice.sendDataAux st n).bytesToReceive = st.bytesToReceive ∧
      (SimCommDevice.sendDataAux st n).bytesToRead = st.bytesToRead ∧
      (SimCommDevice.sendDataAux st n).readBuffer = st.readBuffer ∧
      (SimCommDevice.sendDataAux st n).connectState = st.connectState := by
  induction n with
  | zero =>
    intro st _ _ _ _
    refine ⟨by simp [SimCommDevice.sendDataAux], ?_, rfl, rfl, rfl, rfl,
      rfl, rfl, rfl, rfl⟩
    simp [SimCommDevice.sendDataAux]
  | succ n ih =>
    intro st hwf hs h1 h2
    have hne : 0 < st.writeBuffer.availableData := by omega
    have hrh : st.writeBuffer.readHead < st.writeBuffer.bufferSize :=
      hwf.2.2.1
    have htx : 0 < st.serial.txSpace := by omega
    obtain ⟨c, cs, hcc⟩ : ∃ c cs, st.writeBuffer.contents = c :: cs := by
      have hl := contents_length st.writeBuffer
      cases hcon : st.writeBuffer.contents with
      | nil => rw [hcon] at hl; simp at hl; omega
      | cons c cs => exact ⟨c, cs, rfl⟩
    have hval : (st.writeBuffer.pullOne).2 = c := by
      rw [CircularBuffer.pullOne_val _ hrh hne, hcc]
      rfl
    have hwbc : (st.writeBuffer.pullOne).1.contents = cs := by
      rw [CircularBuffer.pullOne_contents _ hwf hs hne, hcc]
      rfl
    have hstep : SimCommDevice.sendDataAux st (n + 1)
        = SimCommDevice.sendDataAux
            { st with
              writeBuffer := (st.writeBuffer.pullOne).1
              serial :=
                (st.serial.writeByte (st.writeBuffer.pullOne).2).1 } n := rfl
    have hwbyte : (st.serial.writeByte (st.writeBuffer.pullOne).2).1
        = { st.serial with
            txData := st.serial.txData ++ [c]
            txSpace := st.serial.txSpace - 1 } := by
      rw [hval]
      unfold BufferedSerial.writeByte
      rw [if_pos htx]
    have havail : (st.writeBuffer.pullOne).1.availableData
        = st.writeBuffer.availableData - 1 := by
      rw [CircularBuffer.pullOne_availableData, if_pos hne]
    have hres := ih
      { st with
        writeBuffer := (st.writeBuffer.pullOne).1
        serial := (st.serial.writeByte (st.writeBuffer.pullOne).2).1 }
      (CircularBuffer.pullOne_WF _ hwf hs hne) hs
      (by simp only [havail]; omega)
      (by simp only [hwbyte]; omega)
    rw [hstep, hwbyte]
    simp only [hwbyte, hwbc, havail] at hres
    obtain ⟨e1, e2, e3, e4, e5, e6, e7, e8, e9, e10⟩ := hres
    refine ⟨?_, by rw [e2]; omega, e3, e4, e5, e6, e7, e8, e9, e10⟩
    rw [e1, hcc, List.take_succ_cons, List.append_assoc]
    rfl

/-- C2 counterexample: after `sendData` on a device with two staged bytes
(`bytesToWrite = 2`, write ring holding `hi`), `bytesToWrite` is 65535 —
the loop's post-decrement wrapped the `uint16_t` counter below zero — and
not zero as the claim states. -/
theorem claim2_counterexample :
    (({ baseState with
        writeBuffer := CircularBuffer.mk 8 2 0 2 "hixxxxxx".toList
        bytesToWrite := 2 } : SimCommDevice).sendData).bytesToWrite
        = 65535 ∧
    (65535 : Nat) ≠ 0 := by
  exact ⟨by decide, by decide⟩

/-- C2 (amended): `sendData()` pulls exactly `bytesToWrite` bytes from the
write ring into the UART in one call (they are the ring's first
`bytesToWrite` FIFO bytes, removed from the ring, everything else
untouched); afterwards `bytesToWrite` equals 65535 — the loop condition's
post-decrement wraps the 16-bit counter below zero — and in particular it
is **not** zero between `CIPSEND` bursts (the next `prepareSending`
overwrites it). -/
theorem claim2_sendData (st : SimCommDevice)
    (hwf : st.writeBuffer.WF) (hs : 0 < st.writeBuffer.bufferSize)
    (h1 : st.bytesToWrite ≤ st.writeBuffer.availableData)
    (h2 : st.bytesToWrite ≤ st.serial.txSpace) :
    (st.sendData).serial.txData
        = st.serial.txData ++ st.writeBuffer.contents.take st.bytesToWrite ∧
    (st.sendData).writeBuffer.availableData
        = st.writeBuffer.availableData - st.bytesToWrite ∧
    (st.sendData).bytesToWrite = 65535 ∧
    (st.sendData).bytesToWrite ≠ 0 ∧
    (st.sendData).serial.rxData = st.serial.rxData ∧
    (st.sendData).stateBooleans = st.stateBooleans ∧
    (st.sendData).waitForReply = st.waitForReply ∧
    (st.sendData).bytesToReceive = st.bytesToReceive ∧
    (st.sendData).bytesToRead = st.bytesToRead ∧
    (st.sendData).readBuffer = st.readBuffer ∧
    (st.sendData).connectState = st.connectState := by
  unfold SimCommDevice.sendData
  have h := sendDataAux_spec st.bytesToWrite st hwf hs h1 h2
  exact ⟨h.1, h.2.1, h.2.2.1, by rw [h.2.2.1]; omega, h.2.2.2.1,
    h.2.2.2.2.1, h.2.2.2.2.2.1, h.2.2.2.2.2.2.1, h.2.2.2.2.2.2.2.1,
    h.2.2.2.2.2.2.2.2.1, h.2.2.2.2.2.2.2.2.2⟩

/-- C2 witness: the amended law on a concrete device with `hi` staged —
exactly those two bytes reach the UART. -/
theorem claim2_witness :
    (({ baseState with
        writeBuffer := CircularBuffer.mk 8 2 0 2 "hixxxxxx".toList
        bytesToWrite := 2 } : SimCommDevice).sendData).serial.txData
      = "hi".toList := by
  have h := claim2_sendData
    { baseState with
      writeBuffer := CircularBuffer.mk 8 2 0 2 "hixxxxxx".toList
      bytesToWrite := 2 }
    (by unfold CircularBuffer.WF; decide) (by decide) (by decide)
    (by decide)
  rw [h.1]
  decide

/-! ## Claim C6 — `prepareSending` -/

theorem writeStr_of_le (s : BufferedSerial) (data : List Char)
    (h : data.length ≤ s.txSpace) :
    s.writeStr data
      = ({ s with
           txData := s.txData ++ data
           txSpace := s.txSpace - data.length }, data.length) := by
  unfold BufferedSerial.writeStr
  have hk : min data.length s.txSpace = data.length := by omega
  rw [hk]
  simp [List.take_length]

/-- C6 counterexample: with 100 bytes of TX space and 5 staged bytes the
emitted command is exactly `AT+CIPSEND=0,5` — the claimed trailing
`\r\n` is not written by `prepareSending`. -/
theorem claim6_counterexample :
    (({ baseState with
        writeBuffer := CircularBuffer.mk 8 5 0 5 "helloxxx".toList }
          : SimCommDevice).prepareSending).1.serial.txData
        = "AT+CIPSEND=0,5".toList ∧
    "AT+CIPSEND=0,5".toList ≠ "AT+CIPSEND=0,5\r\n".toList := by
  exact ⟨by decide, by decide⟩

/-- C6 (amended): `prepareSending()` returns false and changes nothing
when the UART TX free space is below 22; otherwise it sets
`bytesToWrite = min(writeBuffer.available, uartTxFree − 22)`, writes the
bytes `AT+CIPSEND=0,<n>` — `<n>` the decimal rendering of `bytesToWrite`,
truncated to 5 characters by the `snprintf` buffer, with **no** trailing
`\r\n` — sets `waitForReply` to `">"`, and returns true. -/
theorem claim6_prepareSending (st : SimCommDevice) :
    (st.serial.txSpace < 22 → st.prepareSending = (st, false)) ∧
    (22 ≤ st.serial.txSpace →
      st.prepareSending
        = ({ st with
             serial :=
               { st.serial with
                 txData := st.serial.txData ++ "AT+CIPSEND=0,".toList
                     ++ (Nat.repr (min st.writeBuffer.availableData
                          (st.serial.txSpace - 22))).toList.take 5
                 txSpace := st.serial.txSpace - 13
                     - ((Nat.repr (min st.writeBuffer.availableData
                          (st.serial.txSpace - 22))).toList.take 5).length }
             bytesToWrite :=
               min st.writeBuffer.availableData (st.serial.txSpace - 22)
             waitForReply := some ['>'] }, true)) := by
  constructor
  · intro h
    unfold SimCommDevice.prepareSending
    rw [if_pos]
    show st.serial.txSpace < MIN_SPACE_AVAILABLE
    unfold MIN_SPACE_AVAILABLE
    omega
  · intro h
    have hlen13 : ("AT+CIPSEND=0,".toList).length = 13 := by decide
    have h13 := writeStr_of_le st.serial "AT+CIPSEND=0,".toList
      (by omega)
    rw [hlen13] at h13
    have hlen5 : ((Nat.repr (min st.writeBuffer.availableData
        (st.serial.txSpace - 22))).toList.take 5).length ≤ 5 := by
      rw [List.length_take]
      omega
    have h5 := writeStr_of_le
      { st.serial with
        txData := st.serial.txData ++ "AT+CIPSEND=0,".toList
        txSpace := st.serial.txSpace - 13 }
      ((Nat.repr (min st.writeBuffer.availableData
          (st.serial.txSpace - 22))).toList.take 5)
      (by show _ ≤ st.serial.txSpace - 13
          omega)
    have hmin : (if st.writeBuffer.availableData > st.serial.txSpace - 22
        then st.serial.txSpace - 22
        else st.writeBuffer.availableData)
        = min st.writeBuffer.availableData (st.serial.txSpace - 22) := by
      split <;> omega
    unfold SimCommDevice.prepareSending
    rw [if_neg (by
      show ¬ st.serial.txSpace < MIN_SPACE_AVAILABLE
      unfold MIN_SPACE_AVAILABLE
      omega)]
    simp only [CircularBuffer.getAvailableData, BufferedSerial.spaceAvailable,
      MIN_SPACE_AVAILABLE, hmin, h13, h5]

/-- C6 witness: the amended law on a concrete device with 5 staged bytes
and 100 bytes of TX space stages exactly 5 bytes. -/
theorem claim6_witness :
    (({ baseState with
        writeBuffer := CircularBuffer.mk 8 5 0 5 "helloxxx".toList }
          : SimCommDevice).prepareSending).1.bytesToWrite = 5 := by
  have h := (claim6_prepareSending
    { baseState with
      writeBuffer := CircularBuffer.mk 8 5 0 5 "helloxxx".toList }).2
    (by decide)
  rw [h]
  decide

/-! ## C-string helper lemmas -/

theorem cstring_eq_self (l : List Char) (h : NUL ∉ l) : cstring l = l := by
  apply List.takeWhile_eq_self_iff.mpr
  intro c hc
  have hcne : c ≠ NUL := by
    intro heq
    rw [heq] at hc
    exact h hc
  simp [hcne]

theorem digit_not_space {ch : Char} (h : ch.isDigit = true) :
    isSpaceChar ch = false := by
  unfold isSpaceChar
  by_contra hs
  rw [Bool.not_eq_false] at hs
  have hor := of_decide_eq_true hs
  rcases hor with h1 | h1 | h1 | h1 | h1 | h1 <;> subst h1 <;>
    exact absurd h (by decide)

theorem digit_ne_NUL {ch : Char} (h : ch.isDigit = true) : ch ≠ NUL := by
  intro heq
  subst heq
  exact absurd h (by decide)

theorem takeWhile_append_first {α : Type} (p : α → Bool) (xs : List α)
    (y : α) (l : List α) (hx : ∀ x ∈ xs, p x = true) (hy : p y = false) :
    (xs ++ y :: l).takeWhile p = xs := by
  induction xs with
  | nil => simp [List.takeWhile_cons, hy]
  | cons a as ih =>
    rw [List.cons_append, List.takeWhile_cons, hx a (by simp)]
    simp only [if_true]
    rw [ih (fun x hx' => hx x (by simp [hx']))]

theorem dropThroughQuote_append (x y : List Char) (hx : '"' ∉ x) :
    dropThroughQuote (x ++ '"' :: y) = y := by
  induction x with
  | nil => simp [dropThroughQuote]
  | cons a as ih =>
    rw [List.cons_append]
    unfold dropThroughQuote
    have ha : a ≠ '"' := by
      intro heq
      rw [heq] at hx
      exact hx (List.mem_cons_self _ _)
    rw [if_neg ha]
    exact ih (fun hm => hx (List.mem_cons_of_mem a hm))

/-! ## Claim C3 — `+CDNSGIP: 0` handling -/

/-- C3 counterexample: parsing the line `+CDNSGIP: 0,8\r\n` sets
`RESET_PENDING` but leaves the connection phase at `connecting` — it does
**not** become `dnsError` — so the claim is false on the code. -/
theorem claim3_counterexample :
    ((({ baseState with
        lineBuffer := "+CDNSGIP: 0,8\r\n".toList
        connectState := ConnectState.connecting }
          : SimCommDevice).parseDnsReply).1.connectState
        = ConnectState.connecting) ∧
    ((({ baseState with
        lineBuffer := "+CDNSGIP: 0,8\r\n".toList
        connectState := ConnectState.connecting }
          : SimCommDevice).parseDnsReply).1.connectState
        ≠ ConnectState.dnsError) ∧
    ((({ baseState with
        lineBuffer := "+CDNSGIP: 0,8\r\n".toList
        connectState := ConnectState.connecting }
          : SimCommDevice).parseDnsReply).1.stateBooleans.resetPending
        = true) := by
  exact ⟨by decide, by decide, by decide⟩

/-- C3 (amended): parsing a line beginning `+CDNSGIP: 0` sets the
`RESET_PENDING` flag and returns false; the connection phase — like every
other field — is left unchanged (`dnsError` is not set by this parser). -/
theorem claim3_dns_failure (st : SimCommDevice) (rest : List Char)
    (hlb : st.lineBuffer = "+CDNSGIP: 0".toList ++ rest) :
    st.parseDnsReply
      = ({ st with
           stateBooleans :=
             { st.stateBooleans with resetPending := true } }, false) := by
  unfold SimCommDevice.parseDnsReply
  rw [hlb]
  simp [cstring, List.takeWhile_append, NUL, List.isPrefixOf,
    List.isPrefixOf_iff_prefix]

/-- C3 witness: the amended law on the concrete failure line of scenario
S2. -/
theorem claim3_witness :
    ((({ baseState with
        lineBuffer := "+CDNSGIP: 0,8\r\n".toList }
          : SimCommDevice).parseDnsReply).1.stateBooleans.resetPending
        = true) ∧
    ((({ baseState with
        lineBuffer := "+CDNSGIP: 0,8\r\n".toList }
          : SimCommDevice).parseDnsReply).2 = false) := by
  have h := claim3_dns_failure
    { baseState with lineBuffer := "+CDNSGIP: 0,8\r\n".toList }
    ",8\r\n".toList (by decide)
  rw [h]
  exact ⟨rfl, rfl⟩

/-! ## Claim C4 — `+CDNSGIP: 1` parsing -/

/-- C4: on a NUL-free line beginning `+CDNSGIP: 1`: a quote count below 4
or above 10 sets the phase to `dnsError` and returns false, leaving the IP
(and everything else) unchanged; otherwise — the line decomposing around
its first four quotes — the token between the third and fourth quotes is
copied into the session IP field and the parser returns true. -/
theorem claim4_dns_quote_validator (st : SimCommDevice) :
    (NUL ∉ st.lineBuffer →
     "+CDNSGIP: 1".toList <+: st.lineBuffer →
     st.lineBuffer.count '"' < 4 ∨ st.lineBuffer.count '"' > 10 →
     st.parseDnsReply
       = ({ st with connectState := ConnectState.dnsError }, false)) ∧
    (∀ a b c tok d : List Char,
     st.lineBuffer
         = a ++ '"' :: (b ++ '"' :: (c ++ '"' :: (tok ++ '"' :: d))) →
     NUL ∉ st.lineBuffer →
     "+CDNSGIP: 1".toList <+: st.lineBuffer →
     '"' ∉ a → '"' ∉ b → '"' ∉ c → '"' ∉ tok →
     d.count '"' ≤ 6 →
     st.parseDnsReply = ({ st with ip := tok }, true)) := by
  constructor
  · intro hnul hpre hq
    have hpre' : List.isPrefixOf "+CDNSGIP: 1".toList st.lineBuffer
        = true := List.isPrefixOf_iff_prefix.mpr hpre
    unfold SimCommDevice.parseDnsReply
    rw [cstring_eq_self _ hnul]
    simp only [hpre', if_true]
    rw [if_pos hq]
  · intro a b c tok d hdec hnul hpre ha hb hc htok hd6
    have hpre' : List.isPrefixOf "+CDNSGIP: 1".toList st.lineBuffer
        = true := List.isPrefixOf_iff_prefix.mpr hpre
    have hcount : st.lineBuffer.count '"'
        = 4 + d.count '"' := by
      rw [hdec]
      simp only [List.count_append, List.count_cons_self,
        List.count_eq_zero.mpr ha, List.count_eq_zero.mpr hb,
        List.count_eq_zero.mpr hc, List.count_eq_zero.mpr htok]
      omega
    have hdrop : dropThroughQuote (dropThroughQuote
        (dropThroughQuote st.lineBuffer)) = tok ++ '"' :: d := by
      rw [hdec, dropThroughQuote_append _ _ ha,
        dropThroughQuote_append _ _ hb, dropThroughQuote_append _ _ hc]
    have htake : (tok ++ '"' :: d).takeWhile (· ≠ '"') = tok := by
      apply takeWhile_append_first
      · intro x hx
        have hxne : x ≠ '"' := by
          intro heq
          rw [heq] at hx
          exact htok hx
        simp [hxne]
      · simp
    unfold SimCommDevice.parseDnsReply
    rw [cstring_eq_self _ hnul]
    simp only [hpre', if_true]
    rw [if_neg (by rw [hcount]; omega)]
    rw [hdrop, htake]

/-- C4 witness: the canonical reply
`+CDNSGIP: 1,"host","1.2.3.4"\r\n` yields IP `1.2.3.4` and success. -/
theorem claim4_witness :
    ((({ baseState with
        lineBuffer := "+CDNSGIP: 1,\"host\",\"1.2.3.4\"\r\n".toList }
          : SimCommDevice).parseDnsReply).1.ip = "1.2.3.4".toList) ∧
    ((({ baseState with
        lineBuffer := "+CDNSGIP: 1,\"host\",\"1.2.3.4\"\r\n".toList }
          : SimCommDevice).parseDnsReply).2 = true) := by
  have h := (claim4_dns_quote_validator
    { baseState with
      lineBuffer := "+CDNSGIP: 1,\"host\",\"1.2.3.4\"\r\n".toList }).2
    "+CDNSGIP: 1,".toList "host".toList ",".toList "1.2.3.4".toList
    "\r\n".toList (by decide) (by decide) (by decide) (by decide)
    (by decide) (by decide) (by decide) (by decide)
  rw [h]
  exact ⟨rfl, rfl⟩

/-! ## Claim C5 — receive accounting -/

theorem wrap16_add (b n : Nat) (h : b + n < 65536) :
    wrap16 ((b : Int) + (n : Int)) = b + n := by
  unfold wrap16
  omega

theorem wrap16_sub (b n : Nat) (h1 : n ≤ b) (h2 : b < 65536) :
    wrap16 ((b : Int) - (n : Int)) = b - n := by
  unfold wrap16
  omega

/-- `sscanf("%d")` on a digit run followed by `\r\n` reads exactly the
digits' value. -/
theorem sscanfDec_digits (ds : List Char) (hne : ds ≠ [])
    (hd : ∀ ch ∈ ds, ch.isDigit = true) :
    sscanfDec (ds ++ '\r' :: '\n' :: []) = some ((digitsToNat ds : Nat) : Int) := by
  obtain ⟨c, ds', rfl⟩ : ∃ c ds', ds = c :: ds' := by
    cases ds with
    | nil => exact absurd rfl hne
    | cons c ds' => exact ⟨c, ds', rfl⟩
  have hc : c.isDigit = true := hd c (by simp)
  have hcm : c ≠ '-' := by
    intro heq
    rw [heq] at hc
    exact absurd hc (by decide)
  have hcp : c ≠ '+' := by
    intro heq
    rw [heq] at hc
    exact absurd hc (by decide)
  have htake : ((c :: ds') ++ '\r' :: '\n' :: []).takeWhile Char.isDigit
      = c :: ds' := by
    apply takeWhile_append_first _ _ _ _ hd (by decide)
  unfold sscanfDec
  rw [List.cons_append, List.dropWhile_cons, digit_not_space hc]
  simp only [Bool.false_eq_true, if_false]
  rw [if_neg hcm, if_neg hcp]
  rw [← List.cons_append, htake]
  simp

/-- C5: parsing `+CIPRXGET: 4,0,N` adds `N` to `bytesToReceive` and
changes nothing else; parsing `+CIPRXGET: 2,0,N` subtracts `N` from
`bytesToReceive`, adds `N` to `bytesToRead`, and clears `LINE_READ`
(the `Size` counters staying within their 16-bit range). -/
theorem claim5_receive_accounting :
    (∀ (st : SimCommDevice) (ds : List Char),
      ds ≠ [] → (∀ ch ∈ ds, ch.isDigit = true) →
      st.lineBuffer = "+CIPRXGET: 4,0,".toList ++ (ds ++ '\r' :: '\n' :: []) →
      st.bytesToReceive + digitsToNat ds < 65536 →
      st.parseCiprxget4
        = ({ st with
             bytesToReceive := st.bytesToReceive + digitsToNat ds }, true)) ∧
    (∀ (st : SimCommDevice) (ds : List Char),
      ds ≠ [] → (∀ ch ∈ ds, ch.isDigit = true) →
      st.lineBuffer = "+CIPRXGET: 2,0,".toList ++ (ds ++ '\r' :: '\n' :: []) →
      digitsToNat ds ≤ st.bytesToReceive →
      st.bytesToReceive < 65536 →
      st.bytesToRead + digitsToNat ds < 65536 →
      st.parseCiprxget2
        = ({ st with
             bytesToReceive := st.bytesToReceive - digitsToNat ds
             bytesToRead := st.bytesToRead + digitsToNat ds
             stateBooleans :=
               { st.stateBooleans with lineRead := false } }, true)) := by
  constructor
  · intro st ds hne hd hlb hsum
    have hnul : NUL ∉ st.lineBuffer := by
      rw [hlb]
      intro hmem
      rcases List.mem_append.mp hmem with h | h
      · exact absurd h (by decide)
      rcases List.mem_append.mp h with h | h
      · exact absurd (hd NUL h) (by decide)
      · exact absurd h (by decide)
    have hpre : List.isPrefixOf "+CIPRXGET: 4,0,".toList st.lineBuffer
        = true := by
      rw [hlb]
      simp [List.isPrefixOf_iff_prefix]
    have hdrop : st.lineBuffer.drop 15 = ds ++ '\r' :: '\n' :: [] := by
      rw [hlb,
        show (15 : Nat) = ("+CIPRXGET: 4,0,".toList).length from by decide]
      exact List.drop_left _ _
    unfold SimCommDevice.parseCiprxget4
    rw [cstring_eq_self _ hnul]
    simp only [hpre, if_true, hdrop, sscanfDec_digits ds hne hd,
      Option.getD_some]
    rw [wrap16_add _ _ hsum]
  · intro st ds hne hd hlb hle h16 hsum
    have hnul : NUL ∉ st.lineBuffer := by
      rw [hlb]
      intro hmem
      rcases List.mem_append.mp hmem with h | h
      · exact absurd h (by decide)
      rcases List.mem_append.mp h with h | h
      · exact absurd (hd NUL h) (by decide)
      · exact absurd h (by decide)
    have hpre : List.isPrefixOf "+CIPRXGET: 2,0,".toList st.lineBuffer
        = true := by
      rw [hlb]
      simp [List.isPrefixOf_iff_prefix]
    have hdrop : st.lineBuffer.drop 15 = ds ++ '\r' :: '\n' :: [] := by
      rw [hlb,
        show (15 : Nat) = ("+CIPRXGET: 2,0,".toList).length from by decide]
      exact List.drop_left _ _
    unfold SimCommDevice.parseCiprxget2
    rw [cstring_eq_self _ hnul]
    simp only [hpre, if_true, hdrop, sscanfDec_digits ds hne hd,
      Option.getD_some]
    rw [wrap16_sub _ _ hle h16, wrap16_add _ _ hsum]

/-- C5 witness: `+CIPRXGET: 4,0,37` takes `bytesToReceive` from 5 to 42;
`+CIPRXGET: 2,0,3` moves 3 bytes from `bytesToReceive` (10 → 7) into
`bytesToRead` (1 → 4) and clears `LINE_READ`. -/
theorem claim5_witness :
    (({ baseState with
        lineBuffer := "+CIPRXGET: 4,0,37\r\n".toList
        bytesToReceive := 5 } : SimCommDevice).parseCiprxget4
      = ({ baseState with
           lineBuffer := "+CIPRXGET: 4,0,37\r\n".toList
           bytesToReceive := 42 }, true)) ∧
    (({ baseState with
        lineBuffer := "+CIPRXGET: 2,0,3\r\n".toList
        bytesToReceive := 10
        bytesToRead := 1 } : SimCommDevice).parseCiprxget2
      = ({ baseState with
           lineBuffer := "+CIPRXGET: 2,0,3\r\n".toList
           bytesToReceive := 7
           bytesToRead := 4
           stateBooleans :=
             { baseState.stateBooleans with lineRead := false } }, true)) := by
  constructor
  · have h := claim5_receive_accounting.1
      { baseState with
        lineBuffer := "+CIPRXGET: 4,0,37\r\n".toList
        bytesToReceive := 5 }
      "37".toList (by decide) (by decide) (by decide) (by decide)
    rw [h]
    decide
  · have h := claim5_receive_accounting.2
      { baseState with
        lineBuffer := "+CIPRXGET: 2,0,3\r\n".toList
        bytesToReceive := 10
        bytesToRead := 1 }
      "3".toList (by decide) (by decide) (by decide) (by decide)
      (by decide) (by decide)
    rw [h]
    decide

/-! ## Claim C7 — line terminator law: helper lemmas -/

theorem getD_take {α : Type} (l : List α) (n j : Nat) (d : α) (h : j < n) :
    (l.take n).getD j d = l.getD j d := by
  simp [List.getD_eq_getElem?_getD, List.getElem?_take, h]

theorem setRange_length (s : List Char) :
    ∀ (l : List Char) (f : Nat), (setRange l f s).length = l.length := by
  induction s with
  | nil => intro l f; rfl
  | cons c cs ih =>
    intro l f
    show (setRange (l.set f c) (f + 1) cs).length = l.length
    rw [ih, List.length_set]

theorem setRange_getD_lt (s : List Char) :
    ∀ (l : List Char) (f i : Nat), i < f →
      (setRange l f s).getD i default = l.getD i default := by
  induction s with
  | nil => intro l f i _; rfl
  | cons c cs ih =>
    intro l f i hi
    show (setRange (l.set f c) (f + 1) cs).getD i default = _
    rw [ih _ _ _ (by omega)]
    exact getD_set_ne _ _ _ _ _ (by omega)

theorem setRange_getD_in (s : List Char) :
    ∀ (l : List Char) (f j : Nat), j < s.length → f + s.length ≤ l.length →
      (setRange l f s).getD (f + j) default = s.getD j default := by
  induction s with
  | nil => intro l f j hj _; exact absurd hj (by simp)
  | cons c cs ih =>
    intro l f j hj hb
    show (setRange (l.set f c) (f + 1) cs).getD (f + j) default = _
    cases j with
    | zero =>
      rw [setRange_getD_lt cs _ _ _ (by omega)]
      show (l.set f c).getD (f + 0) default = _
      rw [Nat.add_zero]
      rw [getD_set_self _ _ _ _ (by
        simp only [List.length_cons] at hb
        omega)]
      rfl
    | succ j' =>
      have harith : f + (j' + 1) = (f + 1) + j' := by omega
      rw [harith]
      have hb2 : (f + 1) + cs.length ≤ (l.set f c).length := by
        rw [List.length_set]
        simp only [List.length_cons] at hb
        omega
      have hj2 : j' < cs.length := by
        simp only [List.length_cons] at hj
        omega
      rw [ih _ _ _ hj2 hb2]
      rfl

theorem isTermAt_cons_succ (f : Nat) (c : Char) (cs : List Char) (k : Nat) :
    isTermAt f (c :: cs) (k + 1) ↔ isTermAt (f + 1) cs k := by
  unfold isTermAt
  rw [show (c :: cs).getD (k + 1) default = cs.getD k default from rfl,
    show f + (k + 1) + 1 = f + 1 + k + 1 from by omega]

theorem isTermAt_cons_zero (f : Nat) (c : Char) (cs : List Char) :
    isTermAt f (c :: cs) 0 ↔ (c = '\n' ∨ c = '>' ∨ f + 1 = LINE_MAX_LENGTH) := by
  unfold isTermAt
  rw [show (c :: cs).getD 0 default = c from rfl,
    show f + 0 + 1 = f + 1 from by omega]

theorem findTerm_none_spec (s : List Char) :
    ∀ f, findTerm f s = none →
      ∀ k, k < s.length → ¬ isTermAt f s k := by
  induction s with
  | nil => intro f _ k hk; exact absurd hk (by simp)
  | cons c cs ih =>
    intro f h k hk
    unfold findTerm at h
    split at h
    · exact absurd h (by simp)
    · rename_i hcond
      have h' : findTerm (f + 1) cs = none := Option.map_eq_none'.mp h
      cases k with
      | zero => rw [isTermAt_cons_zero]; exact hcond
      | succ k' =>
        rw [isTermAt_cons_succ]
        exact ih (f + 1) h' k' (by
          simp only [List.length_cons] at hk
          omega)

theorem findTerm_some_spec (s : List Char) :
    ∀ f k, findTerm f s = some k →
      k < s.length ∧ isTermAt f s k ∧ ∀ j, j < k → ¬ isTermAt f s j := by
  induction s with
  | nil => intro f k h; exact absurd h (by simp [findTerm])
  | cons c cs ih =>
    intro f k h
    unfold findTerm at h
    split at h
    · rename_i hcond
      have hk0 : k = 0 := by
        have := Option.some.inj h
        omega
      subst hk0
      refine ⟨by simp, ?_, by omega⟩
      rw [isTermAt_cons_zero]
      exact hcond
    · rename_i hcond
      obtain ⟨k', hk', hkk⟩ := Option.map_eq_some'.mp h
      obtain ⟨h1, h2, h3⟩ := ih (f + 1) k' hk'
      subst hkk
      refine ⟨by simp only [List.length_cons]; omega, ?_, ?_⟩
      · rw [isTermAt_cons_succ]
        exact h2
      · intro j hj
        cases j with
        | zero => rw [isTermAt_cons_zero]; exact hcond
        | succ j' =>
          rw [isTermAt_cons_succ]
          exact h3 j' (by omega)

theorem findTerm_bound (s : List Char) :
    ∀ f k, f < LINE_MAX_LENGTH → findTerm f s = some k →
      f + k + 1 ≤ LINE_MAX_LENGTH := by
  induction s with
  | nil => intro f k _ h; exact absurd h (by simp [findTerm])
  | cons c cs ih =>
    intro f k hf h
    unfold findTerm at h
    split at h
    · have hk0 : k = 0 := by
        have := Option.some.inj h
        omega
      subst hk0
      omega
    · rename_i hcond
      obtain ⟨k', hk', hkk⟩ := Option.map_eq_some'.mp h
      have hne : f + 1 ≠ LINE_MAX_LENGTH := fun heq =>
        hcond (Or.inr (Or.inr heq))
      have := ih (f + 1) k' (by omega) hk'
      omega

theorem fillLoop_none (s : List Char) :
    ∀ (l : List Char) (f : Nat), findTerm f s = none →
      SimCommDevice.fillLoop l f s = (setRange l f s, f + s.length, [], false) := by
  induction s with
  | nil => intro l f _; rfl
  | cons c cs ih =>
    intro l f h
    unfold findTerm at h
    split at h
    · exact absurd h (by simp)
    · rename_i hcond
      have h' : findTerm (f + 1) cs = none := Option.map_eq_none'.mp h
      show SimCommDevice.fillLoop l f (c :: cs) = _
      unfold SimCommDevice.fillLoop
      rw [if_neg hcond, ih _ _ h']
      show (setRange (l.set f c) (f + 1) cs, f + 1 + cs.length, [], false)
          = (setRange l f (c :: cs), f + (c :: cs).length, [], false)
      simp only [List.length_cons]
      refine congrArg₂ Prod.mk rfl (congrArg₂ Prod.mk (by omega) rfl)

theorem fillLoop_some (s : List Char) :
    ∀ (l : List Char) (f k : Nat), findTerm f s = some k →
      SimCommDevice.fillLoop l f s
        = ((setRange l f (s.take (k + 1))).set (f + k + 1) NUL, 0,
           s.drop (k + 1), true) := by
  induction s with
  | nil => intro l f k h; exact absurd h (by simp [findTerm])
  | cons c cs ih =>
    intro l f k h
    unfold findTerm at h
    split at h
    · rename_i hcond
      have hk0 : k = 0 := by
        have := Option.some.inj h
        omega
      subst hk0
      show SimCommDevice.fillLoop l f (c :: cs) = _
      unfold SimCommDevice.fillLoop
      rw [if_pos hcond]
      rfl
    · rename_i hcond
      obtain ⟨k', hk', hkk⟩ := Option.map_eq_some'.mp h
      subst hkk
      show SimCommDevice.fillLoop l f (c :: cs) = _
      unfold SimCommDevice.fillLoop
      rw [if_neg hcond, ih _ _ _ hk']
      show _ = ((setRange l f ((c :: cs).take (k' + 1 + 1))).set
          (f + (k' + 1) + 1) NUL, 0, (c :: cs).drop (k' + 1 + 1), true)
      rw [List.take_succ_cons, List.drop_succ_cons]
      show ((setRange (l.set f c) (f + 1) (cs.take (k' + 1))).set
          (f + 1 + k' + 1) NUL, 0, cs.drop (k' + 1), true) = _
      have harith : f + 1 + k' + 1 = f + (k' + 1) + 1 := by omega
      rw [harith]
      rfl

/-! ## Claim C7 — line terminator law -/

/-- C7: while `LINE_READ` is set (the spec invokes `fillLineBuffer` only
then), with the fill-cursor invariant holding (cursor below capacity, no
terminator among the bytes already accumulated): the call returns true
exactly when some consumed byte is `'\n'` or `'>'` or the cursor reaches
`LINE_MAX_LENGTH`; at the first such byte it stops, writes a trailing NUL
after the consumed bytes, resets the cursor to zero, leaves the rest of
the stream unconsumed, and the yielded line holds no terminator before its
last byte; with no terminator condition it consumes all available bytes,
keeps accumulating, and returns false. -/
theorem claim7_line_terminator (st : SimCommDevice)
    (hlr : st.stateBooleans.lineRead = true)
    (hlen : st.lineBuffer.length = LINE_MAX_LENGTH + 1)
    (hf : st.lbFill < LINE_MAX_LENGTH)
    (hclean : ∀ i, i < st.lbFill →
      st.lineBuffer.getD i default ≠ '\n' ∧
      st.lineBuffer.getD i default ≠ '>') :
    ((st.fillLineBuffer).2 = true ↔
      ∃ k, k < st.serial.rxData.length ∧
        isTermAt st.lbFill st.serial.rxData k) ∧
    (∀ k, findTerm st.lbFill st.serial.rxData = some k →
      (st.fillLineBuffer).1.lbFill = 0 ∧
      (st.fillLineBuffer).1.serial.rxData = st.serial.rxData.drop (k + 1) ∧
      (st.fillLineBuffer).1.lineBuffer.getD (st.lbFill + k + 1) default
          = NUL ∧
      (∀ j, j ≤ k →
        (st.fillLineBuffer).1.lineBuffer.getD (st.lbFill + j) default
          = st.serial.rxData.getD j default) ∧
      (∀ i, i < st.lbFill →
        (st.fillLineBuffer).1.lineBuffer.getD i default
          = st.lineBuffer.getD i default) ∧
      (∀ i, i < st.lbFill + k →
        (st.fillLineBuffer).1.lineBuffer.getD i default ≠ '\n' ∧
        (st.fillLineBuffer).1.lineBuffer.getD i default ≠ '>')) ∧
    (findTerm st.lbFill st.serial.rxData = none →
      (st.fillLineBuffer).2 = false ∧
      (st.fillLineBuffer).1.lbFill = st.lbFill + st.serial.rxData.length ∧
      (st.fillLineBuffer).1.serial.rxData = []) := by
  have hfb : st.fillLineBuffer
      = ({ st with
           lineBuffer := (SimCommDevice.fillLoop st.lineBuffer st.lbFill
             st.serial.rxData).1
           lbFill := (SimCommDevice.fillLoop st.lineBuffer st.lbFill
             st.serial.rxData).2.1
           serial := { st.serial with
             rxData := (SimCommDevice.fillLoop st.lineBuffer st.lbFill
               st.serial.rxData).2.2.1 } },
         (SimCommDevice.fillLoop st.lineBuffer st.lbFill
           st.serial.rxData).2.2.2) := by
    unfold SimCommDevice.fillLineBuffer
    rw [hlr]
    rfl
  refine ⟨?_, ?_, ?_⟩
  · cases hft : findTerm st.lbFill st.serial.rxData with
    | none =>
      rw [hfb, fillLoop_none _ _ _ hft]
      exact iff_of_false (by simp)
        (by rintro ⟨k, hk, hterm⟩
            exact findTerm_none_spec _ _ hft k hk hterm)
    | some k =>
      rw [hfb, fillLoop_some _ _ _ _ hft]
      obtain ⟨hk, hterm, _⟩ := findTerm_some_spec _ _ _ hft
      exact iff_of_true rfl ⟨k, hk, hterm⟩
  · intro k hft
    obtain ⟨hk, hterm, hmin⟩ := findTerm_some_spec _ _ _ hft
    have hbound : st.lbFill + k + 1 ≤ LINE_MAX_LENGTH :=
      findTerm_bound _ _ _ hf hft
    rw [hfb, fillLoop_some _ _ _ _ hft]
    have hbytes : ∀ j, j ≤ k →
        ((setRange st.lineBuffer st.lbFill
            (st.serial.rxData.take (k + 1))).set
          (st.lbFill + k + 1) NUL).getD (st.lbFill + j) default
          = st.serial.rxData.getD j default := by
      intro j hj
      rw [getD_set_ne _ _ _ _ _ (by omega)]
      have hjlt : j < (st.serial.rxData.take (k + 1)).length := by
        rw [List.length_take]
        omega
      have hble : st.lbFill + (st.serial.rxData.take (k + 1)).length
          ≤ st.lineBuffer.length := by
        rw [List.length_take, hlen]
        have hm := min_le_left (k + 1) st.serial.rxData.length
        omega
      rw [setRange_getD_in _ _ _ _ hjlt hble]
      exact getD_take _ _ _ _ (by omega)
    have hold : ∀ i, i < st.lbFill →
        ((setRange st.lineBuffer st.lbFill
            (st.serial.rxData.take (k + 1))).set
          (st.lbFill + k + 1) NUL).getD i default
          = st.lineBuffer.getD i default := by
      intro i hi
      rw [getD_set_ne _ _ _ _ _ (by omega),
        setRange_getD_lt _ _ _ _ hi]
    refine ⟨rfl, rfl, ?_, hbytes, hold, ?_⟩
    · apply getD_set_self
      rw [setRange_length, hlen]
      omega
    · intro i hi
      by_cases hif : i < st.lbFill
      · rw [hold i hif]
        exact hclean i hif
      · obtain ⟨j, hij, hjk⟩ : ∃ j, i = st.lbFill + j ∧ j < k :=
          ⟨i - st.lbFill, by omega, by omega⟩
        subst hij
        rw [hbytes j (by omega)]
        have hnt := hmin j hjk
        unfold isTermAt at hnt
        push_neg at hnt
        exact ⟨hnt.1, hnt.2.1⟩
  · intro hft
    rw [hfb, fillLoop_none _ _ _ hft]
    exact ⟨rfl, rfl, rfl⟩

/-- C7 witness: feeding `OK\r\nrest` to the base state yields the line at
the `\n`, resets the cursor, and leaves `rest` unconsumed. -/
theorem claim7_witness :
    ((({ baseState with
        serial := { testSerial with rxData := "OK\r\nrest".toList } }
          : SimCommDevice).fillLineBuffer).1.lbFill = 0) ∧
    ((({ baseState with
        serial := { testSerial with rxData := "OK\r\nrest".toList } }
          : SimCommDevice).fillLineBuffer).1.serial.rxData
        = "rest".toList) := by
  have h := (claim7_line_terminator
    { baseState with
      serial := { testSerial with rxData := "OK\r\nrest".toList } }
    rfl (by decide) (by decide)
    (by intro i hi
        rw [show ({ baseState with
            serial := { testSerial with rxData := "OK\r\nrest".toList } }
              : SimCommDevice).lbFill = 0 from rfl] at hi
        exact absurd hi (by omega))).2.1 3 (by decide)
  refine ⟨h.1, ?_⟩
  rw [h.2.1]
  decide

end Cicada
